import Mathlib

/-!
# googlesheets3k: the spreadsheet client facade of `sheetsAPI.go`

A shallow embedding of the functions of `sheetsAPI.go` that shape fetched cell
values (`GetColumnValues`, `GetColumnValuesAsString`, `GetSheetValuesMapped`),
resolve tabs by name (`GetByTabName`, `RenameTab`) and write ranges
(`PrintToSheet`), followed by theorems about them.

Conventions of the embedding:

* the remote service handle (`receiver.Service`) is a record of state-passing
  functions over a world `W`; every call threads the world explicitly;
* every operation returns a `Run`: its result (or the fault that stopped it),
  the world it left behind and the trace of observable events it produced,
  in order (remote calls, log lines, sleeps);
* a Go run-time panic and a `log.Fatal*` process exit are values of `Fault`;
* `PrintToSheet` recurses without bound in the source, so it carries a fuel
  argument and returns `none` when the fuel is exhausted.
-/

namespace GoogleSheets3k

/-! ## Data model -/

/-- A cell value: the Go `interface{}` found in `ValueRange.Values` after JSON
decoding: a string, a number (a finite `float64`, kept as the rational it
denotes, so that equality is Go's `==`), a boolean, or `nil`. -/
inductive Cell where
  | str (s : String)
  | num (q : ℚ)
  | bool (b : Bool)
  | null
  deriving DecidableEq

/-- The vendor type `sheets.ValueRange`, restricted to the two fields that
`PrintToSheet` sets. -/
structure ValueRange where
  MajorDimension : String
  Values : List (List Cell)
  deriving DecidableEq

/-- Modelled from the spec: the vendor type `sheets.SheetProperties` is not part
of the source; a tab is "identified by an integer id ... and a display title". -/
structure SheetProperties where
  Title : String
  SheetId : Int
  deriving DecidableEq

/-- Modelled from the spec: the vendor type `sheets.Sheet`, carrying its
properties. -/
structure Sheet where
  Properties : SheetProperties
  deriving DecidableEq

/-- Modelled from the spec: the vendor type `sheets.Spreadsheet` as a snapshot: an
identifier and the ordered tab list. -/
structure Spreadsheet where
  SpreadsheetId : String
  Sheets : List Sheet
  deriving DecidableEq

/-- The vendor type `sheets.Request`, as the tagged variant of the mutations
that the source builds. -/
inductive Request where
  | UpdateSpreadsheetProperties (Title : String) (Fields : String)
  | AddSheet (Title : String)
  | UpdateSheetProperties (Properties : SheetProperties) (Fields : String)
  | DeleteSheet (SheetId : Int)
  deriving DecidableEq

/-- A `Spreadsheets.Values.Update` or `Spreadsheets.Values.Append` call as
built by the source: target, range, body and the options set on the call. -/
structure ValuesCall where
  spreadsheetId : String
  range : String
  valueRange : ValueRange
  valueInputOption : String
  fields : Option String
  deriving DecidableEq

/-- An observable step of an operation. -/
inductive Event where
  | println (line : String)
  | logError (body : String) (message : String)
  | sleep (milliseconds : Nat)
  | valuesGet (spreadsheetId : String) (range : String)
  | valuesUpdate (call : ValuesCall)
  | valuesAppend (call : ValuesCall)
  | batchUpdate (spreadsheetId : String) (requests : List Request) (fields : String)
  deriving DecidableEq

/-- The ways an operation stops without returning: `log.Fatal`/`log.Fatalf`
(the message handed to the logger, then process exit) and the Go run-time
panics for an index out of range, a nil pointer dereference and a failed type
assertion. -/
inductive Fault where
  | fatal (message : String)
  | indexOutOfRange (index : Int) (length : Nat)
  | nilDereference
  | interfaceConversion
  deriving DecidableEq

/-- The remote service handle `receiver.Service`: each call takes the world
and returns the response or the error message, and the next world. The
response types `U`, `A`, `B` of update, append and batch-update are those of
the vendor SDK and stay abstract. -/
structure Service (W U A B : Type) where
  valuesGet : W → String → String → Except String (List (List Cell)) × W
  valuesUpdate : W → ValuesCall → Except String U × W
  valuesAppend : W → ValuesCall → Except String A × W
  batchUpdate : W → String → List Request → String → Except String B × W

/-- The two functions of Go's package `strings` that change case; their
Unicode tables are not part of the source, so they are taken as given. -/
structure Strings where
  ToLower : String → String
  ToUpper : String → String

/-- The outcome of running an operation. -/
structure Run (W α : Type) where
  result : Except Fault α
  world : W
  trace : List Event

/-- Go's `strings.Contains` on character lists: `sub` occurs at some position
of `s`. -/
def containsChars (sub : List Char) : List Char → Bool
  | [] => sub.isEmpty
  | c :: cs => sub.isPrefixOf (c :: cs) || containsChars sub cs

/-- Go's `strings.Contains`. -/
def stringsContains (s substr : String) : Bool :=
  containsChars substr.data s.data

/-! ## A Go map keyed by cells -/

/-- The Go map `map[interface{}][][]interface{}`: at most one entry per key. -/
abbrev GoMap := List (Cell × List (List Cell))

namespace GoMap

/-- The entry stored under `k`, if any. -/
def find? : GoMap → Cell → Option (List (List Cell))
  | [], _ => none
  | (k', v) :: rest, k => if k' = k then some v else find? rest k

/-- Go's `m[k]` read: the stored value, or the zero value (a nil slice). -/
def get (m : GoMap) (k : Cell) : List (List Cell) :=
  match m.find? k with
  | some v => v
  | none => []

/-- Go's `m[k] = v`. -/
def set : GoMap → Cell → List (List Cell) → GoMap
  | [], k, v => [(k, v)]
  | (k', v') :: rest, k, v =>
    if k' = k then (k', v) :: rest else (k', v') :: set rest k v

/-- The keys of the map. -/
def keys (m : GoMap) : List Cell := m.map Prod.fst

/-- The number of cells held by all rows of all groups. -/
def cellCount (m : GoMap) : Nat :=
  (m.map (fun e => (e.2.map List.length).sum)).sum

end GoMap

/-! ## Reading: `GetSheetValues`, `GetColumnValues`, `GetSheetValuesMapped`,
`GetColumnValuesAsString` -/

section Operations

variable {W U A B : Type}

/-- `GetSheetValues`: one fetch; a failure is fatal. -/
def GetSheetValues (svc : Service W U A B) (w : W) (spreadsheetId a1Notation : String) :
    Run W (List (List Cell)) :=
  match svc.valuesGet w spreadsheetId a1Notation with
  | (.error err, w1) => ⟨.error (.fatal err), w1, [.valuesGet spreadsheetId a1Notation]⟩
  | (.ok values, w1) => ⟨.ok values, w1, [.valuesGet spreadsheetId a1Notation]⟩

/-- The loops of `GetColumnValues`: every cell of every row is appended to
`columnValues`, which starts as a nil slice. -/
def columnValuesLoop (values : List (List Cell)) : List Cell :=
  values.foldl
    (fun columnValues row => row.foldl (fun columnValues cell => columnValues ++ [cell]) columnValues)
    []

/-- `GetColumnValues`. -/
def GetColumnValues (svc : Service W U A B) (w : W) (spreadsheetId a1Notation : String) :
    Run W (List Cell) :=
  match svc.valuesGet w spreadsheetId a1Notation with
  | (.error err, w1) => ⟨.error (.fatal err), w1, [.valuesGet spreadsheetId a1Notation]⟩
  | (.ok values, w1) =>
    ⟨.ok (columnValuesLoop values), w1, [.valuesGet spreadsheetId a1Notation]⟩

/-- Go's `row[i]` for a signed index: the cell, or the index-out-of-range
panic. -/
def indexRow (row : List Cell) (i : Int) : Except Fault Cell :=
  if 0 ≤ i then
    match row[i.toNat]? with
    | some cell => .ok cell
    | none => .error (.indexOutOfRange i row.length)
  else .error (.indexOutOfRange i row.length)

/-- The inner loop of `GetSheetValuesMapped`: the cells of `row` whose index
is not `keyColumn`, appended in order to a nil slice. -/
def rowCellsLoop (row : List Cell) (keyColumn : Int) : List Cell :=
  row.enum.foldl
    (fun rowCells ic => if (ic.1 : Int) = keyColumn then rowCells else rowCells ++ [ic.2])
    []

/-- The outer loop of `GetSheetValuesMapped` over the rows, from the map
built so far. -/
def mappedLoop (keyColumn : Int) : List (List Cell) → GoMap → Except Fault GoMap
  | [], m => .ok m
  | row :: rest, m =>
    let rowCells := rowCellsLoop row keyColumn
    match indexRow row keyColumn with
    | .error fault => .error fault
    | .ok key => mappedLoop keyColumn rest (m.set key (m.get key ++ [rowCells]))

/-- `GetSheetValuesMapped`. -/
def GetSheetValuesMapped (svc : Service W U A B) (w : W) (spreadsheetId a1Notation : String)
    (keyColumn : Int) : Run W GoMap :=
  let fetched := GetSheetValues svc w spreadsheetId a1Notation
  match fetched.result with
  | .error fault => ⟨.error fault, fetched.world, fetched.trace⟩
  | .ok rows => ⟨mappedLoop keyColumn rows [], fetched.world, fetched.trace⟩

/-- Go's type assertion `cell.(string)`. -/
def assertString : Cell → Except Fault String
  | .str s => .ok s
  | _ => .error .interfaceConversion

/-- The inner loop of `GetColumnValuesAsString` over one row. -/
def stringRowLoop : List Cell → List String → Except Fault (List String)
  | [], columnValues => .ok columnValues
  | cell :: rest, columnValues =>
    match assertString cell with
    | .error fault => .error fault
    | .ok s => stringRowLoop rest (columnValues ++ [s])

/-- The outer loop of `GetColumnValuesAsString` over the rows. -/
def stringValuesLoop : List (List Cell) → List String → Except Fault (List String)
  | [], columnValues => .ok columnValues
  | row :: rest, columnValues =>
    match stringRowLoop row columnValues with
    | .error fault => .error fault
    | .ok columnValues1 => stringValuesLoop rest columnValues1

/-- `GetColumnValuesAsString`. -/
def GetColumnValuesAsString (strings : Strings) (svc : Service W U A B) (w : W)
    (spreadsheetId a1Notation : String) (toLower : Bool) : Run W (List String) :=
  match svc.valuesGet w spreadsheetId a1Notation with
  | (.error err, w1) => ⟨.error (.fatal err), w1, [.valuesGet spreadsheetId a1Notation]⟩
  | (.ok values, w1) =>
    match stringValuesLoop values [] with
    | .error fault => ⟨.error fault, w1, [.valuesGet spreadsheetId a1Notation]⟩
    | .ok columnValues =>
      if toLower then
        ⟨.ok (columnValues.map strings.ToLower), w1, [.valuesGet spreadsheetId a1Notation]⟩
      else ⟨.ok columnValues, w1, [.valuesGet spreadsheetId a1Notation]⟩

/-! ## Tabs: `GetByTabName`, `RenameTabById`, `RenameTab` -/

/-- The scan of `GetByTabName`: the first sheet whose title is `tabName`. -/
def scanSheets (tabName : String) : List Sheet → Option Sheet
  | [] => none
  | sheet :: rest =>
    if sheet.Properties.Title = tabName then some sheet else scanSheets tabName rest

/-- `GetByTabName`: the sheet found (`none` is the nil pointer) and the log
line written when there is none. -/
def GetByTabName (spreadsheet : Spreadsheet) (tabName : String) : Option Sheet × List Event :=
  match scanSheets tabName spreadsheet.Sheets with
  | some sheet => (some sheet, [])
  | none =>
    (none,
      [.logError
        ("Sheet SendEmail " ++ tabName ++ " not found in SpreadsheetID: " ++ spreadsheet.SpreadsheetId)
        "Sheet not found"])

/-- `ExecuteBatchUpdateRequest`: one batch-update call asking for all fields;
the response and the error are both handed back. -/
def ExecuteBatchUpdateRequest (svc : Service W U A B) (w : W) (spreadsheetId : String)
    (requests : List Request) : Run W (Except String B) :=
  match svc.batchUpdate w spreadsheetId requests "*" with
  | (response, w1) => ⟨.ok response, w1, [.batchUpdate spreadsheetId requests "*"]⟩

/-- `RenameTabById`. -/
def RenameTabById (svc : Service W U A B) (w : W) (spreadsheetId newTabName : String)
    (tabID : Int) : Run W (Except String B) :=
  ExecuteBatchUpdateRequest svc w spreadsheetId
    [.UpdateSheetProperties ⟨newTabName, tabID⟩ "title"]

/-- `RenameTab`: the tab is resolved, then `tab.Properties.SheetId` is read to
build the argument of `RenameTabById`, whose results are dropped. -/
def RenameTab (svc : Service W U A B) (w : W) (spreadsheet : Spreadsheet)
    (oldTabName newTabName : String) : Run W Unit :=
  match GetByTabName spreadsheet oldTabName with
  | (none, logged) => ⟨.error .nilDereference, w, logged⟩
  | (some tab, logged) =>
    let renamed := RenameTabById svc w spreadsheet.SpreadsheetId newTabName tab.Properties.SheetId
    ⟨renamed.result.map (fun _ => ()), renamed.world, logged ++ renamed.trace⟩

/-! ## Writing: `PrintToSheet` -/

/-- The request log line of `PrintToSheet`. -/
def writeRequestLine (spreadsheetId a1Notation : String) (values : List (List Cell))
    (overwrite : Bool) : String :=
  "Spreadsheet Write Request --> SpreadsheetID:[" ++ spreadsheetId ++ "], A1Notation:["
    ++ a1Notation ++ "], TotalInserts[" ++ toString values.length ++ "], overwrite["
    ++ toString overwrite ++ "]"

/-- `PrintToSheet`. The result is the `interface{}` holding the update
response (left) or the append response (right). The first argument is the
fuel: the number of entries into the function that are allowed. -/
def PrintToSheet (strings : Strings) (svc : Service W U A B) :
    Nat → W → String → String → String → List (List Cell) → Bool → Option (Run W (U ⊕ A))
  | 0, _, _, _, _, _, _ => none
  | fuel + 1, w, spreadsheetId, a1Notation, majorDimension, values, overwrite =>
    let valueRange : ValueRange := ⟨strings.ToUpper majorDimension, values⟩
    let request := Event.println (writeRequestLine spreadsheetId a1Notation values overwrite)
    if overwrite = true then
      let call : ValuesCall := ⟨spreadsheetId, a1Notation, valueRange, "RAW", none⟩
      match svc.valuesUpdate w call with
      | (.error err, w1) => some ⟨.error (.fatal err), w1, [request, .valuesUpdate call]⟩
      | (.ok response, w1) => some ⟨.ok (.inl response), w1, [request, .valuesUpdate call]⟩
    else
      let call : ValuesCall := ⟨spreadsheetId, a1Notation, valueRange, "USER_ENTERED", some "*"⟩
      match svc.valuesAppend w call with
      | (.error err, w1) =>
        if stringsContains err "Quota exceeded" then
          match PrintToSheet strings svc fuel w1 spreadsheetId a1Notation majorDimension values
              overwrite with
          | none => none
          | some retried =>
            some ⟨retried.result, retried.world,
              [request, .valuesAppend call, .println err,
                .println "Backing off for 2.5 seconds...", .sleep 2500] ++ retried.trace⟩
        else some ⟨.error (.fatal err), w1, [request, .valuesAppend call, .println err]⟩
      | (.ok response, w1) =>
        some ⟨.ok (.inr response), w1,
          [request, .valuesAppend call,
            .println "Spreadsheet write request was successful..."]⟩

end Operations

/-! ## Vocabulary of the statements -/

/-- The rows whose cell at index `n` is `k`, in their original order, each
without that cell: the group that the specification associates with `k`. -/
def groupOf (rows : List (List Cell)) (n : Nat) (k : Cell) : List (List Cell) :=
  (rows.filter (fun row => decide (row[n]? = some k))).map (fun row => row.eraseIdx n)

/-- The append calls of a trace, in order. -/
def appendCalls (trace : List Event) : List ValuesCall :=
  trace.filterMap (fun event => match event with
    | .valuesAppend call => some call
    | _ => none)

/-- The update calls of a trace, in order. -/
def updateCalls (trace : List Event) : List ValuesCall :=
  trace.filterMap (fun event => match event with
    | .valuesUpdate call => some call
    | _ => none)

/-- The batch-update (mutation) calls of a trace, in order. -/
def batchUpdateCalls (trace : List Event) : List (String × List Request) :=
  trace.filterMap (fun event => match event with
    | .batchUpdate spreadsheetId requests _ => some (spreadsheetId, requests)
    | _ => none)

/-- The delays of a trace in milliseconds, in order. -/
def sleeps (trace : List Event) : List Nat :=
  trace.filterMap (fun event => match event with
    | .sleep milliseconds => some milliseconds
    | _ => none)

/-- The events of one entry into `PrintToSheet` in append mode whose append
call fails with the quota message `err`: request line, call, the error
line, the back-off line and the delay that precedes the retry. -/
def quotaAttempt (request : Event) (call : ValuesCall) (err : String) : List Event :=
  [request, .valuesAppend call, .println err, .println "Backing off for 2.5 seconds...",
    .sleep 2500]

/-- A transport that, from world `w`, answers the append call `call` with the
failures `errs` in turn, each message containing "Quota exceeded", then with
`response`, ending in world `wEnd`. -/
def QuotaThenSuccess {W U A B : Type} (svc : Service W U A B) (call : ValuesCall) (response : A)
    (wEnd : W) : List String → W → Prop
  | [], w => svc.valuesAppend w call = (.ok response, wEnd)
  | err :: errs, w =>
    ∃ w1, svc.valuesAppend w call = (.error err, w1)
      ∧ stringsContains err "Quota exceeded" = true
      ∧ QuotaThenSuccess svc call response wEnd errs w1

/-! ## Simulated transports used to instantiate the statements -/

/-- A transport with a single world whose fetch returns `rows` and whose
other calls succeed. -/
def fixedService (rows : List (List Cell)) : Service Unit Unit Unit Unit where
  valuesGet := fun w _ _ => (.ok rows, w)
  valuesUpdate := fun w _ => (.ok (), w)
  valuesAppend := fun w _ => (.ok (), w)
  batchUpdate := fun w _ _ _ => (.ok (), w)

/-- A transport whose world counts the quota failures still to come: append
fails while the count is positive; update always fails with a quota
message. -/
def quotaService : Service Nat String String Unit where
  valuesGet := fun w _ _ => (.ok [], w)
  valuesUpdate := fun w _ => (.error "googleapi: Error 429: Quota exceeded", w)
  valuesAppend := fun w _ =>
    match w with
    | 0 => (.ok "appended", 0)
    | n + 1 => (.error "googleapi: Error 429: Quota exceeded", n)
  batchUpdate := fun w _ _ _ => (.ok (), w)

/-- An ASCII stand-in for the case functions of package `strings`. -/
def asciiStrings : Strings where
  ToLower := fun s => ⟨s.data.map Char.toLower⟩
  ToUpper := fun s => ⟨s.data.map Char.toUpper⟩

/-- The rows of the grouping scenario. -/
def scenarioRows : List (List Cell) :=
  [[.str "a", .num 1, .num 2], [.str "b", .num 3, .num 4], [.str "a", .num 5, .num 6]]

/-- Ragged rows: three cells, none, one. -/
def raggedRows : List (List Cell) :=
  [[.str "a", .num 1, .num 2], [], [.bool true]]

/-- Rows holding strings only. -/
def stringRows : List (List Cell) :=
  [[.str "Ab"], [.str "C", .str "d"]]

/-- The snapshot of the tab-lookup scenario. -/
def scenarioSnapshot : Spreadsheet :=
  ⟨"spreadsheet-1", [⟨⟨"Sheet1", 0⟩⟩, ⟨⟨"Data", 7⟩⟩]⟩


/-! ## Lemmas on the loops -/

section Lemmas

variable {W U A B : Type}

theorem foldl_append_singleton {α : Type} (row init : List α) :
    row.foldl (fun acc cell => acc ++ [cell]) init = init ++ row := by
  induction row generalizing init with
  | nil => simp
  | cons c cs ih => simp [ih]

theorem columnValuesLoop_from (values : List (List Cell)) (init : List Cell) :
    values.foldl
      (fun columnValues row => row.foldl (fun columnValues cell => columnValues ++ [cell]) columnValues)
      init = init ++ values.flatten := by
  induction values generalizing init with
  | nil => simp
  | cons row rest ih =>
    rw [List.foldl_cons, ih, foldl_append_singleton]
    simp

theorem columnValuesLoop_eq_flatten (values : List (List Cell)) :
    columnValuesLoop values = values.flatten := by
  simp [columnValuesLoop, columnValuesLoop_from]

theorem flatten_position {α : Type} (rows : List (List α)) (i j : Nat) (hi : i < rows.length)
    (hj : j < (rows.get ⟨i, hi⟩).length) :
    rows.flatten[((rows.take i).map List.length).sum + j]? = some ((rows.get ⟨i, hi⟩).get ⟨j, hj⟩) := by
  induction rows generalizing i with
  | nil => simp at hi
  | cons row rest ih =>
    cases i with
    | zero =>
      simp at hj ⊢
      rw [List.getElem?_append_left hj]
      simp [List.getElem?_eq_getElem hj]
    | succ i =>
      have hi1 : i < rest.length := by simpa using hi
      have hj1 : j < (rest.get ⟨i, hi1⟩).length := by simpa using hj
      have key := ih i hi1 hj1
      have e : (((row :: rest).take (i + 1)).map List.length).sum + j
          = row.length + (((rest.take i).map List.length).sum + j) := by
        simp [Nat.add_assoc]
      rw [e, List.flatten_cons, List.getElem?_append_right (by omega)]
      rw [Nat.add_sub_cancel_left, key]
      simp

end Lemmas

section MapLemmas

theorem GoMap.find?_set (m : GoMap) (k k' : Cell) (v : List (List Cell)) :
    GoMap.find? (GoMap.set m k v) k' = if k = k' then some v else GoMap.find? m k' := by
  induction m with
  | nil => simp [GoMap.set, GoMap.find?]
  | cons e rest ih =>
    obtain ⟨k0, v0⟩ := e
    by_cases h : k0 = k
    · subst h
      by_cases h' : k0 = k' <;> simp [GoMap.set, GoMap.find?, h']
    · by_cases h' : k0 = k'
      · subst h'
        have : ¬ k = k0 := fun e => h e.symm
        simp [GoMap.set, GoMap.find?, h, this]
      · simp [GoMap.set, GoMap.find?, h, h', ih]

theorem GoMap.get_set (m : GoMap) (k k' : Cell) (v : List (List Cell)) :
    GoMap.get (GoMap.set m k v) k' = if k = k' then v else GoMap.get m k' := by
  unfold GoMap.get
  rw [GoMap.find?_set]
  by_cases h : k = k' <;> simp [h]

theorem GoMap.keys_set (m : GoMap) (k : Cell) (v : List (List Cell)) :
    GoMap.keys (GoMap.set m k v) = if k ∈ GoMap.keys m then GoMap.keys m else GoMap.keys m ++ [k] := by
  induction m with
  | nil => simp [GoMap.set, GoMap.keys]
  | cons e rest ih =>
    obtain ⟨k0, v0⟩ := e
    by_cases h : k0 = k
    · subst h
      simp [GoMap.set, GoMap.keys]
    · have hne : ¬ k = k0 := fun e => h e.symm
      simp only [GoMap.keys] at ih
      by_cases hin : k ∈ List.map Prod.fst rest
      · simp [GoMap.set, GoMap.keys, h, hne, hin, ih]
      · simp [GoMap.set, GoMap.keys, h, hne, hin, ih]

theorem GoMap.mem_keys_iff (m : GoMap) (k : Cell) :
    k ∈ GoMap.keys m ↔ (GoMap.find? m k).isSome = true := by
  induction m with
  | nil => simp [GoMap.keys, GoMap.find?]
  | cons e rest ih =>
    obtain ⟨k0, v0⟩ := e
    simp only [GoMap.keys] at ih
    by_cases h : k0 = k
    · simp [GoMap.keys, GoMap.find?, h]
    · have hne : ¬ k = k0 := fun e => h e.symm
      simp [GoMap.keys, GoMap.find?, h, hne, ih]

theorem GoMap.cellCount_set (m : GoMap) (k : Cell) (v : List (List Cell)) :
    GoMap.cellCount (GoMap.set m k v) + ((GoMap.get m k).map List.length).sum
      = GoMap.cellCount m + (v.map List.length).sum := by
  induction m with
  | nil => simp [GoMap.set, GoMap.cellCount, GoMap.get, GoMap.find?]
  | cons e rest ih =>
    obtain ⟨k0, v0⟩ := e
    by_cases h : k0 = k
    · simp [GoMap.set, GoMap.cellCount, GoMap.get, GoMap.find?, h]
      omega
    · simp only [GoMap.cellCount, GoMap.get] at ih
      simp [GoMap.set, GoMap.cellCount, GoMap.get, GoMap.find?, h]
      omega

end MapLemmas

section RowLemmas

theorem rowCellsLoop_from (row : List Cell) (n k : Nat) (init : List Cell) :
    (row.enumFrom n).foldl
      (fun rowCells ic => if (ic.1 : Int) = (k : Int) then rowCells else rowCells ++ [ic.2]) init
      = init ++ (if n ≤ k then row.eraseIdx (k - n) else row) := by
  induction row generalizing n init with
  | nil => simp
  | cons c cs ih =>
    rw [List.enumFrom_cons, List.foldl_cons, ih]
    by_cases hnk : n = k
    · subst hnk
      simp
    · have hne : ¬ ((n : Int) = (k : Int)) := by exact_mod_cast hnk
      simp only [hne, if_false]
      by_cases hle : n ≤ k
      · have h1 : n + 1 ≤ k := by omega
        have h2 : k - n = (k - (n + 1)) + 1 := by omega
        simp [hle, h1, h2]
      · have h1 : ¬ n + 1 ≤ k := by omega
        simp [hle, h1]

theorem rowCellsLoop_eq_eraseIdx (row : List Cell) (k : Nat) :
    rowCellsLoop row (k : Int) = row.eraseIdx k := by
  unfold rowCellsLoop List.enum
  rw [rowCellsLoop_from]
  simp

theorem indexRow_ok (row : List Cell) (k : Nat) (c : Cell) (h : row[k]? = some c) :
    indexRow row (k : Int) = .ok c := by
  simp [indexRow, h]

theorem indexRow_short (row : List Cell) (i : Int) (h : (row.length : Int) ≤ i) :
    indexRow row i = .error (.indexOutOfRange i row.length) := by
  have h0 : 0 ≤ i := le_trans (Int.natCast_nonneg _) h
  have hn : row.length ≤ i.toNat := by omega
  simp [indexRow, h0, List.getElem?_eq_none hn]

end RowLemmas

section GroupLemmas

theorem mappedLoop_ok (n : Nat) (rows : List (List Cell)) (m : GoMap)
    (h : ∀ row ∈ rows, n < row.length) :
    ∃ m', mappedLoop (n : Int) rows m = .ok m'
      ∧ (∀ k, GoMap.get m' k = GoMap.get m k ++ groupOf rows n k)
      ∧ (∀ k, k ∈ GoMap.keys m' ↔ k ∈ GoMap.keys m ∨ ∃ row ∈ rows, row[n]? = some k)
      ∧ ((GoMap.keys m).Nodup → (GoMap.keys m').Nodup)
      ∧ GoMap.cellCount m' = GoMap.cellCount m + (rows.map (fun row => row.length - 1)).sum := by
  induction rows generalizing m with
  | nil => exact ⟨m, rfl, by simp [groupOf], by simp, id, by simp⟩
  | cons row rest ih =>
    have hrow : n < row.length := h row (List.mem_cons_self _ _)
    have hrest : ∀ r ∈ rest, n < r.length := fun r hr => h r (List.mem_cons_of_mem _ hr)
    obtain ⟨c, hcell⟩ : ∃ c, row[n]? = some c := ⟨row[n], List.getElem?_eq_getElem hrow⟩
    obtain ⟨m', hm', hget, hkeys, hnodup, hcount⟩ :=
      ih (GoMap.set m c (GoMap.get m c ++ [row.eraseIdx n])) hrest
    refine ⟨m', ?_, ?_, ?_, ?_, ?_⟩
    · simp only [mappedLoop, indexRow_ok row n c hcell, rowCellsLoop_eq_eraseIdx]
      exact hm'
    · intro k
      rw [hget k, GoMap.get_set]
      by_cases hk : c = k
      · subst hk
        simp [groupOf, List.filter_cons, hcell]
      · have hne : ¬ row[n]? = some k := by
          rw [hcell]; intro e; exact hk (Option.some.inj e)
        simp [groupOf, List.filter_cons, hne, hk]
    · intro k
      rw [hkeys k, GoMap.keys_set]
      have hck : row[n]? = some k ↔ c = k := by
        rw [hcell]; exact ⟨fun e => Option.some.inj e, fun e => by rw [e]⟩
      by_cases hin : c ∈ GoMap.keys m
      · simp only [hin, if_true, List.mem_cons, exists_eq_or_imp, hck]
        constructor
        · rintro (hk | hk)
          · exact Or.inl hk
          · exact Or.inr (Or.inr hk)
        · rintro (hk | hk | hk)
          · exact Or.inl hk
          · exact Or.inl (hk ▸ hin)
          · exact Or.inr hk
      · simp only [hin, if_false, List.mem_append, List.mem_singleton, exists_eq_or_imp, hck,
          List.exists_mem_cons_iff]
        constructor
        · rintro ((hk | hk) | hk)
          · exact Or.inl hk
          · exact Or.inr (Or.inl hk.symm)
          · exact Or.inr (Or.inr hk)
        · rintro (hk | hk | hk)
          · exact Or.inl (Or.inl hk)
          · exact Or.inl (Or.inr hk.symm)
          · exact Or.inr hk
    · intro hnd
      apply hnodup
      rw [GoMap.keys_set]
      by_cases hin : c ∈ GoMap.keys m
      · simp only [hin, if_true]; exact hnd
      · simp only [hin, if_false]
        exact List.Nodup.append hnd (List.nodup_singleton _) (by simpa using hin)
    · rw [hcount]
      have hs := GoMap.cellCount_set m c (GoMap.get m c ++ [row.eraseIdx n])
      have hlen : (row.eraseIdx n).length = row.length - 1 := List.length_eraseIdx_of_lt hrow
      simp only [List.map_append, List.sum_append, List.map_cons, List.map_nil, List.sum_cons,
        List.sum_nil, hlen] at hs ⊢
      omega

theorem mappedLoop_short (keyColumn : Int) (pre post : List (List Cell)) (row : List Cell)
    (m : GoMap) (hpre : ∀ r ∈ pre, 0 ≤ keyColumn ∧ keyColumn < (r.length : Int))
    (hrow : (row.length : Int) ≤ keyColumn) :
    mappedLoop keyColumn (pre ++ row :: post) m
      = .error (.indexOutOfRange keyColumn row.length) := by
  induction pre generalizing m with
  | nil => simp [mappedLoop, indexRow_short row keyColumn hrow]
  | cons r rest ih =>
    obtain ⟨h0, hlt⟩ := hpre r (List.mem_cons_self _ _)
    have hrest : ∀ r' ∈ rest, 0 ≤ keyColumn ∧ keyColumn < (r'.length : Int) :=
      fun r' hr' => hpre r' (List.mem_cons_of_mem _ hr')
    obtain ⟨n, rfl⟩ := Int.eq_ofNat_of_zero_le h0
    have hn : n < r.length := by exact_mod_cast hlt
    simp only [List.cons_append, mappedLoop,
      indexRow_ok r n r[n] (List.getElem?_eq_getElem hn)]
    exact ih _ hrest

theorem exists_first_short (keyColumn : Int) (rows : List (List Cell))
    (h : ∃ row ∈ rows, (row.length : Int) ≤ keyColumn) :
    ∃ pre row post, rows = pre ++ row :: post
      ∧ (∀ r ∈ pre, keyColumn < (r.length : Int))
      ∧ (row.length : Int) ≤ keyColumn := by
  induction rows with
  | nil => simp at h
  | cons r rest ih =>
    by_cases hr : (r.length : Int) ≤ keyColumn
    · exact ⟨[], r, rest, rfl, by simp, hr⟩
    · obtain ⟨row, hmem, hrow⟩ := h
      have hmem' : row ∈ rest := by
        rcases List.mem_cons.mp hmem with e | e
        · exact absurd (e ▸ hrow) hr
        · exact e
      obtain ⟨pre, row', post, e, hpre, hrow'⟩ := ih ⟨row, hmem', hrow⟩
      refine ⟨r :: pre, row', post, by simp [e], ?_, hrow'⟩
      intro r' hr'
      rcases List.mem_cons.mp hr' with e' | e'
      · subst e'; omega
      · exact hpre r' e'

end GroupLemmas

section StringLemmas

theorem stringRowLoop_ok (row : List Cell) (columnValues : List String)
    (h : ∀ cell ∈ row, ∃ s, cell = .str s) :
    ∃ out, stringRowLoop row columnValues = .ok (columnValues ++ out) ∧ out.map Cell.str = row := by
  induction row generalizing columnValues with
  | nil => exact ⟨[], by simp [stringRowLoop], rfl⟩
  | cons cell rest ih =>
    obtain ⟨s, rfl⟩ := h cell (List.mem_cons_self _ _)
    obtain ⟨out, hout, hmap⟩ :=
      ih (columnValues ++ [s]) (fun c hc => h c (List.mem_cons_of_mem _ hc))
    refine ⟨s :: out, ?_, by simp [hmap]⟩
    simp only [stringRowLoop, assertString, hout]
    simp

theorem stringRowLoop_fault (row : List Cell) (columnValues : List String)
    (h : ∃ cell ∈ row, ∀ s, cell ≠ .str s) :
    stringRowLoop row columnValues = .error .interfaceConversion := by
  induction row generalizing columnValues with
  | nil => simp at h
  | cons cell rest ih =>
    cases cell with
    | str s =>
      obtain ⟨c, hc, hns⟩ := h
      rcases List.mem_cons.mp hc with e | e
      · exact absurd e (hns s)
      · simp only [stringRowLoop, assertString]
        exact ih _ ⟨c, e, hns⟩
    | num q => rfl
    | bool b => rfl
    | null => rfl

theorem stringValuesLoop_ok (rows : List (List Cell)) (columnValues : List String)
    (h : ∀ row ∈ rows, ∀ cell ∈ row, ∃ s, cell = .str s) :
    ∃ out, stringValuesLoop rows columnValues = .ok (columnValues ++ out)
      ∧ out.map Cell.str = rows.flatten := by
  induction rows generalizing columnValues with
  | nil => exact ⟨[], by simp [stringValuesLoop], rfl⟩
  | cons row rest ih =>
    obtain ⟨o1, h1, hm1⟩ := stringRowLoop_ok row columnValues (h row (List.mem_cons_self _ _))
    obtain ⟨o2, h2, hm2⟩ :=
      ih (columnValues ++ o1) (fun r hr => h r (List.mem_cons_of_mem _ hr))
    refine ⟨o1 ++ o2, ?_, by simp [hm1, hm2]⟩
    simp only [stringValuesLoop, h1, h2]
    simp

theorem stringValuesLoop_fault (rows : List (List Cell)) (columnValues : List String)
    (h : ∃ row ∈ rows, ∃ cell ∈ row, ∀ s, cell ≠ .str s) :
    stringValuesLoop rows columnValues = .error .interfaceConversion := by
  induction rows generalizing columnValues with
  | nil => simp at h
  | cons row rest ih =>
    by_cases hrow : ∃ cell ∈ row, ∀ s, cell ≠ .str s
    · simp only [stringValuesLoop, stringRowLoop_fault row columnValues hrow]
    · have hall : ∀ cell ∈ row, ∃ s, cell = .str s := by
        intro cell hcell
        by_contra hne
        exact hrow ⟨cell, hcell, fun s e => hne ⟨s, e⟩⟩
      obtain ⟨o1, h1, _⟩ := stringRowLoop_ok row columnValues hall
      obtain ⟨r, hr, c, hc, hns⟩ := h
      rcases List.mem_cons.mp hr with e | e
      · subst e; exact absurd ⟨c, hc, hns⟩ hrow
      · simp only [stringValuesLoop, h1]
        exact ih _ ⟨r, e, c, hc, hns⟩

theorem all_strings_or_not (rows : List (List Cell)) :
    (∀ row ∈ rows, ∀ cell ∈ row, ∃ s, cell = .str s)
      ∨ (∃ row ∈ rows, ∃ cell ∈ row, ∀ s, cell ≠ .str s) := by
  by_cases h : ∃ row ∈ rows, ∃ cell ∈ row, ∀ s, cell ≠ .str s
  · exact Or.inr h
  · left
    intro row hrow cell hcell
    by_contra hne
    exact h ⟨row, hrow, cell, hcell, fun s e => hne ⟨s, e⟩⟩

end StringLemmas

section TabLemmas

theorem scanSheets_eq_none (tabName : String) (sheets : List Sheet) :
    scanSheets tabName sheets = none ↔ ∀ s ∈ sheets, s.Properties.Title ≠ tabName := by
  induction sheets with
  | nil => simp [scanSheets]
  | cons sheet rest ih =>
    by_cases h : sheet.Properties.Title = tabName
    · simp [scanSheets, h]
    · simp [scanSheets, h, ih]

theorem scanSheets_eq_some (tabName : String) (sheets : List Sheet) (sheet : Sheet) :
    scanSheets tabName sheets = some sheet ↔
      ∃ pre post, sheets = pre ++ sheet :: post
        ∧ (∀ s ∈ pre, s.Properties.Title ≠ tabName) ∧ sheet.Properties.Title = tabName := by
  induction sheets with
  | nil => simp [scanSheets]
  | cons first rest ih =>
    by_cases h : first.Properties.Title = tabName
    · simp only [scanSheets, h, if_true, Option.some.injEq]
      constructor
      · rintro rfl
        exact ⟨[], rest, rfl, by simp, h⟩
      · rintro ⟨pre, post, e, hpre, _⟩
        cases pre with
        | nil => simp at e; exact e.1
        | cons p ps =>
          simp at e
          exact absurd (e.1 ▸ h) (hpre p (List.mem_cons_self _ _))
    · simp only [scanSheets, h, if_false, ih]
      constructor
      · rintro ⟨pre, post, e, hpre, ht⟩
        refine ⟨first :: pre, post, by simp [e], ?_, ht⟩
        intro s hs
        rcases List.mem_cons.mp hs with e' | e'
        · subst e'; exact h
        · exact hpre s e'
      · rintro ⟨pre, post, e, hpre, ht⟩
        cases pre with
        | nil =>
          simp at e
          exact absurd (e.1 ▸ ht) h
        | cons p ps =>
          simp at e
          exact ⟨ps, post, e.2, fun s hs => hpre s (List.mem_cons_of_mem _ hs), ht⟩

theorem GetByTabName_fst (spreadsheet : Spreadsheet) (tabName : String) :
    (GetByTabName spreadsheet tabName).1 = scanSheets tabName spreadsheet.Sheets := by
  unfold GetByTabName
  cases scanSheets tabName spreadsheet.Sheets <;> rfl

theorem RenameTab_not_found {W U A B : Type} (svc : Service W U A B) (w : W)
    (spreadsheet : Spreadsheet) (oldTabName newTabName : String)
    (h : ∀ s ∈ spreadsheet.Sheets, s.Properties.Title ≠ oldTabName) :
    (RenameTab svc w spreadsheet oldTabName newTabName).result = .error .nilDereference
      ∧ (RenameTab svc w spreadsheet oldTabName newTabName).world = w
      ∧ batchUpdateCalls (RenameTab svc w spreadsheet oldTabName newTabName).trace = [] := by
  have hnone := (scanSheets_eq_none oldTabName spreadsheet.Sheets).mpr h
  simp [RenameTab, GetByTabName, hnone, batchUpdateCalls]

end TabLemmas

section WriteLemmas

variable {W U A B : Type}

theorem PrintToSheet_quota_trace (strings : Strings) (svc : Service W U A B)
    (spreadsheetId a1Notation majorDimension : String) (values : List (List Cell))
    (response : A) (wEnd : W) (errs : List String) (w : W) (fuel : Nat)
    (hfuel : errs.length < fuel)
    (hscript : QuotaThenSuccess svc
      ⟨spreadsheetId, a1Notation, ⟨strings.ToUpper majorDimension, values⟩, "USER_ENTERED", some "*"⟩
      response wEnd errs w) :
    PrintToSheet strings svc fuel w spreadsheetId a1Notation majorDimension values false
      = some ⟨.ok (.inr response), wEnd,
          (errs.map (quotaAttempt
              (.println (writeRequestLine spreadsheetId a1Notation values false))
              ⟨spreadsheetId, a1Notation, ⟨strings.ToUpper majorDimension, values⟩,
                "USER_ENTERED", some "*"⟩)).flatten
            ++ [.println (writeRequestLine spreadsheetId a1Notation values false),
                .valuesAppend ⟨spreadsheetId, a1Notation,
                  ⟨strings.ToUpper majorDimension, values⟩, "USER_ENTERED", some "*"⟩,
                .println "Spreadsheet write request was successful..."]⟩ := by
  induction errs generalizing w fuel with
  | nil =>
    obtain ⟨fuel, rfl⟩ : ∃ f, fuel = f + 1 := ⟨fuel - 1, by simp at hfuel; omega⟩
    simp only [QuotaThenSuccess] at hscript
    simp [PrintToSheet, hscript]
  | cons err rest ih =>
    obtain ⟨fuel, rfl⟩ : ∃ f, fuel = f + 1 := ⟨fuel - 1, by simp at hfuel; omega⟩
    obtain ⟨w1, hcall, hquota, hrest⟩ := hscript
    have hlt : rest.length < fuel := by simp at hfuel; omega
    have hrec := ih w1 fuel hlt hrest
    simp [PrintToSheet, hcall, hquota, hrec, quotaAttempt]

theorem appendCalls_attempts (line : String) (call : ValuesCall) (errs : List String)
    (tail : List Event) :
    appendCalls ((errs.map (quotaAttempt (.println line) call)).flatten ++ tail)
      = List.replicate errs.length call ++ appendCalls tail := by
  induction errs with
  | nil => simp
  | cons err rest ih =>
    simp only [appendCalls] at ih
    simp [appendCalls, quotaAttempt, List.filterMap_cons, List.replicate_succ, ih]

theorem updateCalls_attempts (line : String) (call : ValuesCall) (errs : List String)
    (tail : List Event) :
    updateCalls ((errs.map (quotaAttempt (.println line) call)).flatten ++ tail)
      = updateCalls tail := by
  induction errs with
  | nil => simp
  | cons err rest ih =>
    simp only [updateCalls] at ih
    simp [updateCalls, quotaAttempt, List.filterMap_cons, ih]

theorem sleeps_attempts (line : String) (call : ValuesCall) (errs : List String)
    (tail : List Event) :
    sleeps ((errs.map (quotaAttempt (.println line) call)).flatten ++ tail)
      = List.replicate errs.length 2500 ++ sleeps tail := by
  induction errs with
  | nil => simp
  | cons err rest ih =>
    simp only [sleeps] at ih
    simp [sleeps, quotaAttempt, List.filterMap_cons, List.replicate_succ, ih]

end WriteLemmas

section CaseLemmas

theorem charToLower_idempotent (c : Char) : c.toLower.toLower = c.toLower := by
  by_cases h : 65 ≤ c.toNat ∧ c.toNat ≤ 90
  · have hv : (c.toNat + 32).isValidChar := by
      left; omega
    have e : c.toLower = Char.ofNat (c.toNat + 32) := by
      simp [Char.toLower, h]
    have hn : (Char.ofNat (c.toNat + 32)).toNat = c.toNat + 32 := by
      have hlt : c.toNat + 32 < 200 := by omega
      generalize c.toNat + 32 = n at hv hlt
      simp [Char.ofNat, hv, Char.ofNatAux, Char.toNat, UInt32.toNat]
    rw [e]
    have : ¬ (65 ≤ (Char.ofNat (c.toNat + 32)).toNat ∧ (Char.ofNat (c.toNat + 32)).toNat ≤ 90) := by
      rw [hn]; omega
    simp only [Char.toLower]
    simp only [ge_iff_le, this, if_false]
  · have e : c.toLower = c := by
      simp only [Char.toLower, ge_iff_le, h, if_false]
    rw [e, e]

theorem asciiToLower_idempotent (s : String) :
    asciiStrings.ToLower (asciiStrings.ToLower s) = asciiStrings.ToLower s := by
  simp [asciiStrings, Function.comp_def, charToLower_idempotent]

end CaseLemmas

/-! ## Theorems -/

section Theorems

variable {W U A B : Type}

/-- C1: when the fetch returns `rows` and `keyColumn` is a valid index of every
row, `GetSheetValuesMapped` returns a map in which the group stored under a
key `k` that occurs in the key column is exactly the rows whose cell at
`keyColumn` is `k`, in their original order, each with that one cell removed
and its other cells in order; a value that does not occur has no entry; the
keys are exactly the key-column values that occur, each held once. -/
theorem GetSheetValuesMapped_groups (svc : Service W U A B) (w w1 : W)
    (spreadsheetId a1Notation : String) (keyColumn : Int) (rows : List (List Cell))
    (hget : svc.valuesGet w spreadsheetId a1Notation = (.ok rows, w1))
    (hvalid : ∀ row ∈ rows, 0 ≤ keyColumn ∧ keyColumn < (row.length : Int)) :
    ∃ m, (GetSheetValuesMapped svc w spreadsheetId a1Notation keyColumn).result = .ok m
      ∧ (∀ k, (∃ row ∈ rows, row[keyColumn.toNat]? = some k) →
          GoMap.find? m k = some
            ((rows.filter (fun row => decide (row[keyColumn.toNat]? = some k))).map
              (fun row => row.eraseIdx keyColumn.toNat)))
      ∧ (∀ k, (¬ ∃ row ∈ rows, row[keyColumn.toNat]? = some k) → GoMap.find? m k = none)
      ∧ (∀ k, k ∈ GoMap.keys m ↔ ∃ row ∈ rows, row[keyColumn.toNat]? = some k)
      ∧ (GoMap.keys m).Nodup := by
  have hres : (GetSheetValuesMapped svc w spreadsheetId a1Notation keyColumn).result
      = mappedLoop keyColumn rows [] := by
    simp [GetSheetValuesMapped, GetSheetValues, hget]
  have hn : ∀ row ∈ rows, keyColumn.toNat < row.length := by
    intro row hrow
    have := hvalid row hrow
    omega
  have hcast : mappedLoop keyColumn rows [] = mappedLoop (keyColumn.toNat : Int) rows [] := by
    cases rows with
    | nil => rfl
    | cons row rest =>
      have := hvalid row (List.mem_cons_self _ _)
      rw [Int.toNat_of_nonneg this.1]
  obtain ⟨m, hm, hgetm, hkeys, hnodup, _⟩ := mappedLoop_ok keyColumn.toNat rows [] hn
  have hkeys' : ∀ k, k ∈ GoMap.keys m ↔ ∃ row ∈ rows, row[keyColumn.toNat]? = some k := by
    intro k
    rw [hkeys k]
    simp [GoMap.keys]
  refine ⟨m, by rw [hres, hcast, hm], ?_, ?_, hkeys', hnodup (by simp [GoMap.keys])⟩
  · intro k hk
    have hin := (GoMap.mem_keys_iff m k).mp ((hkeys' k).mpr hk)
    have hg := hgetm k
    obtain ⟨v, hv⟩ := Option.isSome_iff_exists.mp hin
    rw [hv]
    simp only [GoMap.get, hv, GoMap.find?, List.nil_append, groupOf] at hg
    rw [hg]
  · intro k hk
    have hnot : ¬ k ∈ GoMap.keys m := fun hmem => hk ((hkeys' k).mp hmem)
    rw [GoMap.mem_keys_iff] at hnot
    cases hf : GoMap.find? m k with
    | none => rfl
    | some v => rw [hf] at hnot; simp at hnot

/-- Instance of C1 on the scenario rows `[["a",1,2],["b",3,4],["a",5,6]]` with
key column 0. -/
theorem GetSheetValuesMapped_groups_witness :
    (GetSheetValuesMapped (fixedService scenarioRows) () "s" "A1:C3" 0).result
        = .ok [(.str "a", [[.num 1, .num 2], [.num 5, .num 6]]), (.str "b", [[.num 3, .num 4]])]
      ∧ ∃ m, (GetSheetValuesMapped (fixedService scenarioRows) () "s" "A1:C3" 0).result = .ok m
        ∧ (∀ k, (∃ row ∈ scenarioRows, row[(0 : Int).toNat]? = some k) →
            GoMap.find? m k = some
              ((scenarioRows.filter (fun row => decide (row[(0 : Int).toNat]? = some k))).map
                (fun row => row.eraseIdx (0 : Int).toNat)))
        ∧ (∀ k, (¬ ∃ row ∈ scenarioRows, row[(0 : Int).toNat]? = some k) →
            GoMap.find? m k = none)
        ∧ (∀ k, k ∈ GoMap.keys m ↔ ∃ row ∈ scenarioRows, row[(0 : Int).toNat]? = some k)
        ∧ (GoMap.keys m).Nodup :=
  ⟨rfl, GetSheetValuesMapped_groups (fixedService scenarioRows) () () "s" "A1:C3" 0 scenarioRows
    rfl (by decide)⟩

/-- C2: when the fetch returns `rows`, rectangular or ragged, `GetColumnValues`
returns the concatenation of the rows in row-major order: its length is the
sum of the row lengths, the `j`-th cell of row `i` is at position (sum of the
lengths of the rows before `i`) + `j`, and no rows give the empty sequence. -/
theorem GetColumnValues_row_major (svc : Service W U A B) (w w1 : W)
    (spreadsheetId a1Notation : String) (rows : List (List Cell))
    (hget : svc.valuesGet w spreadsheetId a1Notation = (.ok rows, w1)) :
    ∃ out, (GetColumnValues svc w spreadsheetId a1Notation).result = .ok out
      ∧ out = rows.flatten
      ∧ out.length = (rows.map List.length).sum
      ∧ (∀ (i j : Nat) (hi : i < rows.length) (hj : j < (rows.get ⟨i, hi⟩).length),
          out[((rows.take i).map List.length).sum + j]? = some ((rows.get ⟨i, hi⟩).get ⟨j, hj⟩))
      ∧ (rows = [] → out = []) := by
  refine ⟨rows.flatten, ?_, rfl, ?_, ?_, ?_⟩
  · simp [GetColumnValues, hget, columnValuesLoop_eq_flatten]
  · simp [List.length_flatten]
  · intro i j hi hj
    exact flatten_position rows i j hi hj
  · rintro rfl; rfl

/-- Instance of C2 on the ragged rows `[["a",1,2],[],[true]]`. -/
theorem GetColumnValues_row_major_witness :
    (GetColumnValues (fixedService raggedRows) () "s" "A1:C3").result
        = .ok [.str "a", .num 1, .num 2, .bool true]
      ∧ ∃ out, (GetColumnValues (fixedService raggedRows) () "s" "A1:C3").result = .ok out
        ∧ out = raggedRows.flatten
        ∧ out.length = (raggedRows.map List.length).sum
        ∧ (∀ (i j : Nat) (hi : i < raggedRows.length)
            (hj : j < (raggedRows.get ⟨i, hi⟩).length),
            out[((raggedRows.take i).map List.length).sum + j]?
              = some ((raggedRows.get ⟨i, hi⟩).get ⟨j, hj⟩))
        ∧ (raggedRows = [] → out = []) :=
  ⟨rfl, GetColumnValues_row_major (fixedService raggedRows) () () "s" "A1:C3" raggedRows rfl⟩

/-- C3 (evaluation of the code where the claim fails): on the snapshot with tabs
"Sheet1" and "Data", renaming the absent tab "Missing" stops in a nil pointer
dereference, after the not-found log line of `GetByTabName` and without any
batch-update call; no not-found error reaches the caller. -/
theorem RenameTab_missing_tab_nil_dereference :
    (RenameTab (fixedService []) () scenarioSnapshot "Missing" "Renamed").result
        = .error .nilDereference
      ∧ batchUpdateCalls
          (RenameTab (fixedService []) () scenarioSnapshot "Missing" "Renamed").trace = []
      ∧ (RenameTab (fixedService []) () scenarioSnapshot "Missing" "Renamed").trace
        = [.logError "Sheet SendEmail Missing not found in SpreadsheetID: spreadsheet-1"
            "Sheet not found"] :=
  ⟨rfl, rfl, rfl⟩

/-- C4: `GetByTabName` returns a sheet exactly when that sheet is the first one of
the snapshot's tab list whose title equals the name (string equality is exact
and case-sensitive), and returns the nil pointer exactly when no tab has that
title. -/
theorem GetByTabName_first_match (spreadsheet : Spreadsheet) (tabName : String) :
    (∀ sheet, (GetByTabName spreadsheet tabName).1 = some sheet ↔
        ∃ pre post, spreadsheet.Sheets = pre ++ sheet :: post
          ∧ (∀ s ∈ pre, s.Properties.Title ≠ tabName) ∧ sheet.Properties.Title = tabName)
      ∧ ((GetByTabName spreadsheet tabName).1 = none ↔
        ∀ s ∈ spreadsheet.Sheets, s.Properties.Title ≠ tabName) := by
  rw [GetByTabName_fst]
  exact ⟨fun sheet => scanSheets_eq_some tabName spreadsheet.Sheets sheet,
    scanSheets_eq_none tabName spreadsheet.Sheets⟩

/-- Instance of C4 on the tabs "Sheet1", "Data": "Data" resolves to the second
tab and "data" resolves to nothing. -/
theorem GetByTabName_first_match_witness :
    (GetByTabName scenarioSnapshot "Data").1 = some ⟨⟨"Data", 7⟩⟩
      ∧ (GetByTabName scenarioSnapshot "data").1 = none
      ∧ (∀ s ∈ scenarioSnapshot.Sheets, s.Properties.Title ≠ "data") :=
  ⟨rfl, rfl, (GetByTabName_first_match scenarioSnapshot "data").2.mp rfl⟩

/-- C5: when the fetch returns `rows` and some row has length at most
`keyColumn`, `GetSheetValuesMapped` returns no map: it stops in the
index-out-of-range panic raised for the first such row, carrying the index and
that row's length. -/
theorem GetSheetValuesMapped_index_out_of_range (svc : Service W U A B) (w w1 : W)
    (spreadsheetId a1Notation : String) (keyColumn : Int) (rows : List (List Cell))
    (hget : svc.valuesGet w spreadsheetId a1Notation = (.ok rows, w1))
    (hshort : ∃ row ∈ rows, (row.length : Int) ≤ keyColumn) :
    ∃ pre row post, rows = pre ++ row :: post
      ∧ (∀ r ∈ pre, keyColumn < (r.length : Int))
      ∧ (row.length : Int) ≤ keyColumn
      ∧ (GetSheetValuesMapped svc w spreadsheetId a1Notation keyColumn).result
        = .error (.indexOutOfRange keyColumn row.length) := by
  obtain ⟨pre, row, post, hsplit, hpre, hrow⟩ := exists_first_short keyColumn rows hshort
  refine ⟨pre, row, post, hsplit, hpre, hrow, ?_⟩
  have h0 : 0 ≤ keyColumn := le_trans (Int.natCast_nonneg _) hrow
  have hres : (GetSheetValuesMapped svc w spreadsheetId a1Notation keyColumn).result
      = mappedLoop keyColumn rows [] := by
    simp [GetSheetValuesMapped, GetSheetValues, hget]
  rw [hres, hsplit]
  exact mappedLoop_short keyColumn pre post row [] (fun r hr => ⟨h0, hpre r hr⟩) hrow

/-- Instance of C5 on the rows `[["a",1,2],[],[true]]` with key column 1: the
second row is the first that is too short. -/
theorem GetSheetValuesMapped_index_out_of_range_witness :
    (GetSheetValuesMapped (fixedService raggedRows) () "s" "A1:C3" 1).result
        = .error (.indexOutOfRange 1 0)
      ∧ ∃ pre row post, raggedRows = pre ++ row :: post
        ∧ (∀ r ∈ pre, (1 : Int) < (r.length : Int))
        ∧ (row.length : Int) ≤ 1
        ∧ (GetSheetValuesMapped (fixedService raggedRows) () "s" "A1:C3" 1).result
          = .error (.indexOutOfRange 1 row.length) :=
  ⟨rfl, GetSheetValuesMapped_index_out_of_range (fixedService raggedRows) () () "s" "A1:C3" 1
    raggedRows rfl ⟨[], by decide, by decide⟩⟩

/-- C9: when the fetch returns `rows` and `keyColumn` is a valid index of every
row, the sum over the rows of (row length - 1) equals the number of cells in
all rows of all groups of the map that `GetSheetValuesMapped` returns, whose keys
are pairwise distinct. -/
theorem GetSheetValuesMapped_cell_count (svc : Service W U A B) (w w1 : W)
    (spreadsheetId a1Notation : String) (keyColumn : Int) (rows : List (List Cell))
    (hget : svc.valuesGet w spreadsheetId a1Notation = (.ok rows, w1))
    (hvalid : ∀ row ∈ rows, 0 ≤ keyColumn ∧ keyColumn < (row.length : Int)) :
    ∃ m, (GetSheetValuesMapped svc w spreadsheetId a1Notation keyColumn).result = .ok m
      ∧ (rows.map (fun row => row.length - 1)).sum = GoMap.cellCount m
      ∧ (GoMap.keys m).Nodup := by
  have hres : (GetSheetValuesMapped svc w spreadsheetId a1Notation keyColumn).result
      = mappedLoop keyColumn rows [] := by
    simp [GetSheetValuesMapped, GetSheetValues, hget]
  have hn : ∀ row ∈ rows, keyColumn.toNat < row.length := by
    intro row hrow
    have := hvalid row hrow
    omega
  have hcast : mappedLoop keyColumn rows [] = mappedLoop (keyColumn.toNat : Int) rows [] := by
    cases rows with
    | nil => rfl
    | cons row rest =>
      have := hvalid row (List.mem_cons_self _ _)
      rw [Int.toNat_of_nonneg this.1]
  obtain ⟨m, hm, _, _, hnodup, hcount⟩ := mappedLoop_ok keyColumn.toNat rows [] hn
  refine ⟨m, by rw [hres, hcast, hm], ?_, hnodup (by simp [GoMap.keys])⟩
  rw [hcount]
  simp [GoMap.cellCount]

/-- Instance of C9 on the scenario rows with key column 0: six cells remain. -/
theorem GetSheetValuesMapped_cell_count_witness :
    (scenarioRows.map (fun row => row.length - 1)).sum = 6
      ∧ ∃ m, (GetSheetValuesMapped (fixedService scenarioRows) () "s" "A1:C3" 0).result = .ok m
        ∧ (scenarioRows.map (fun row => row.length - 1)).sum = GoMap.cellCount m
        ∧ (GoMap.keys m).Nodup :=
  ⟨rfl, GetSheetValuesMapped_cell_count (fixedService scenarioRows) () () "s" "A1:C3" 0
    scenarioRows rfl (by decide)⟩

/-- C6: in append mode, against a transport whose append call fails `n` times
with a message containing "Quota exceeded" and then succeeds, `PrintToSheet`
with any fuel above `n` returns the successful response; its trace is `n`
failed attempts, each followed by one delay of 2500 ms and a retry, then the
successful attempt: `n + 1` append calls, all with the same arguments, `n`
delays of 2500 ms and no update call. -/
theorem PrintToSheet_append_quota_retries (strings : Strings) (svc : Service W U A B)
    (spreadsheetId a1Notation majorDimension : String) (values : List (List Cell))
    (response : A) (w wEnd : W) (n : Nat) (errs : List String) (fuel : Nat)
    (hn : errs.length = n) (hfuel : n < fuel)
    (hscript : QuotaThenSuccess svc
      ⟨spreadsheetId, a1Notation, ⟨strings.ToUpper majorDimension, values⟩, "USER_ENTERED", some "*"⟩
      response wEnd errs w) :
    ∃ run, PrintToSheet strings svc fuel w spreadsheetId a1Notation majorDimension values false
        = some run
      ∧ run.result = .ok (.inr response)
      ∧ run.world = wEnd
      ∧ appendCalls run.trace = List.replicate (n + 1)
          ⟨spreadsheetId, a1Notation, ⟨strings.ToUpper majorDimension, values⟩,
            "USER_ENTERED", some "*"⟩
      ∧ updateCalls run.trace = []
      ∧ sleeps run.trace = List.replicate n 2500
      ∧ run.trace
        = (errs.map (quotaAttempt
              (.println (writeRequestLine spreadsheetId a1Notation values false))
              ⟨spreadsheetId, a1Notation, ⟨strings.ToUpper majorDimension, values⟩,
                "USER_ENTERED", some "*"⟩)).flatten
            ++ [.println (writeRequestLine spreadsheetId a1Notation values false),
                .valuesAppend ⟨spreadsheetId, a1Notation,
                  ⟨strings.ToUpper majorDimension, values⟩, "USER_ENTERED", some "*"⟩,
                .println "Spreadsheet write request was successful..."] := by
  subst hn
  refine ⟨_, PrintToSheet_quota_trace strings svc spreadsheetId a1Notation majorDimension values
    response wEnd errs w fuel hfuel hscript, rfl, rfl, ?_, ?_, ?_, rfl⟩
  · rw [appendCalls_attempts]
    simp [appendCalls, List.replicate_succ']
  · rw [updateCalls_attempts]
    simp [updateCalls]
  · rw [sleeps_attempts]
    simp [sleeps]

/-- Instance of C6 for `n = 1`: one quota failure, then success: two append
calls, one delay of 2500 ms. -/
theorem PrintToSheet_append_quota_retries_witness :
    (PrintToSheet asciiStrings quotaService 2 1 "s" "A1" "rows" [] false).map
        (fun run => (run.result, sleeps run.trace, (appendCalls run.trace).length))
        = some (.ok (.inr "appended"), [2500], 2)
      ∧ ∃ run, PrintToSheet asciiStrings quotaService 2 1 "s" "A1" "rows" [] false = some run
        ∧ run.result = .ok (.inr "appended")
        ∧ run.world = 0
        ∧ appendCalls run.trace = List.replicate (1 + 1)
            ⟨"s", "A1", ⟨asciiStrings.ToUpper "rows", []⟩, "USER_ENTERED", some "*"⟩
        ∧ updateCalls run.trace = []
        ∧ sleeps run.trace = List.replicate 1 2500
        ∧ run.trace
          = (["googleapi: Error 429: Quota exceeded"].map (quotaAttempt
                (.println (writeRequestLine "s" "A1" [] false))
                ⟨"s", "A1", ⟨asciiStrings.ToUpper "rows", []⟩, "USER_ENTERED", some "*"⟩)).flatten
              ++ [.println (writeRequestLine "s" "A1" [] false),
                  .valuesAppend ⟨"s", "A1", ⟨asciiStrings.ToUpper "rows", []⟩, "USER_ENTERED",
                    some "*"⟩,
                  .println "Spreadsheet write request was successful..."] :=
  ⟨rfl, PrintToSheet_append_quota_retries asciiStrings quotaService "s" "A1" "rows" [] "appended"
    1 0 1 ["googleapi: Error 429: Quota exceeded"] 2 rfl (by decide) ⟨0, rfl, by decide, rfl⟩⟩

/-- C7: in overwrite mode, whatever the transport does, one entry into
`PrintToSheet` issues exactly one update call, with input option RAW, no
append call and no delay; when that call fails, whether or not the message
contains "Quota exceeded", the run ends there with the fatal fault carrying
that message; when it succeeds the response is returned. -/
theorem PrintToSheet_overwrite_single_update (strings : Strings) (svc : Service W U A B)
    (fuel : Nat) (w : W) (spreadsheetId a1Notation majorDimension : String)
    (values : List (List Cell)) :
    ∃ run, PrintToSheet strings svc (fuel + 1) w spreadsheetId a1Notation majorDimension values
        true = some run
      ∧ updateCalls run.trace
        = [⟨spreadsheetId, a1Notation, ⟨strings.ToUpper majorDimension, values⟩, "RAW", none⟩]
      ∧ appendCalls run.trace = []
      ∧ sleeps run.trace = []
      ∧ run.trace = [.println (writeRequestLine spreadsheetId a1Notation values true),
          .valuesUpdate
            ⟨spreadsheetId, a1Notation, ⟨strings.ToUpper majorDimension, values⟩, "RAW", none⟩]
      ∧ (∀ err w1, svc.valuesUpdate w
            ⟨spreadsheetId, a1Notation, ⟨strings.ToUpper majorDimension, values⟩, "RAW", none⟩
            = (.error err, w1) →
          run.result = .error (.fatal err) ∧ run.world = w1)
      ∧ (∀ response w1, svc.valuesUpdate w
            ⟨spreadsheetId, a1Notation, ⟨strings.ToUpper majorDimension, values⟩, "RAW", none⟩
            = (.ok response, w1) →
          run.result = .ok (.inl response) ∧ run.world = w1) := by
  rcases hcall : svc.valuesUpdate w
      ⟨spreadsheetId, a1Notation, ⟨strings.ToUpper majorDimension, values⟩, "RAW", none⟩
    with ⟨outcome, w1⟩
  cases outcome with
  | error err =>
    have hrun : PrintToSheet strings svc (fuel + 1) w spreadsheetId a1Notation majorDimension
        values true = some ⟨.error (.fatal err), w1,
          [.println (writeRequestLine spreadsheetId a1Notation values true),
            .valuesUpdate ⟨spreadsheetId, a1Notation,
              ⟨strings.ToUpper majorDimension, values⟩, "RAW", none⟩]⟩ := by
      simp [PrintToSheet, hcall]
    refine ⟨_, hrun, rfl, rfl, rfl, rfl, ?_, ?_⟩
    · intro err' w1' h
      simp only [Prod.mk.injEq, Except.error.injEq] at h
      simp [h.1, h.2]
    · intro response w1' h
      simp at h
  | ok response =>
    have hrun : PrintToSheet strings svc (fuel + 1) w spreadsheetId a1Notation majorDimension
        values true = some ⟨.ok (.inl response), w1,
          [.println (writeRequestLine spreadsheetId a1Notation values true),
            .valuesUpdate ⟨spreadsheetId, a1Notation,
              ⟨strings.ToUpper majorDimension, values⟩, "RAW", none⟩]⟩ := by
      simp [PrintToSheet, hcall]
    refine ⟨_, hrun, rfl, rfl, rfl, rfl, ?_, ?_⟩
    · intro err' w1' h
      simp at h
    · intro response' w1' h
      simp only [Prod.mk.injEq, Except.ok.injEq] at h
      simp [h.1, h.2]

/-- Instance of C7 on a transport whose update call fails with a quota
message: one update call, no delay, the fatal fault. -/
theorem PrintToSheet_overwrite_single_update_witness :
    (PrintToSheet asciiStrings quotaService 5 3 "s" "A1" "rows" [] true).map
        (fun run => (run.result, run.world, sleeps run.trace, (updateCalls run.trace).length))
      = some (.error (.fatal "googleapi: Error 429: Quota exceeded"), 3, [], 1)
      ∧ ∃ run, PrintToSheet asciiStrings quotaService (4 + 1) 3 "s" "A1" "rows" [] true = some run
        ∧ updateCalls run.trace = [⟨"s", "A1", ⟨asciiStrings.ToUpper "rows", []⟩, "RAW", none⟩]
        ∧ appendCalls run.trace = []
        ∧ sleeps run.trace = []
        ∧ run.trace = [.println (writeRequestLine "s" "A1" [] true),
            .valuesUpdate ⟨"s", "A1", ⟨asciiStrings.ToUpper "rows", []⟩, "RAW", none⟩]
        ∧ (∀ err w1, quotaService.valuesUpdate 3
              ⟨"s", "A1", ⟨asciiStrings.ToUpper "rows", []⟩, "RAW", none⟩ = (.error err, w1) →
            run.result = .error (.fatal err) ∧ run.world = w1)
        ∧ (∀ response w1, quotaService.valuesUpdate 3
              ⟨"s", "A1", ⟨asciiStrings.ToUpper "rows", []⟩, "RAW", none⟩ = (.ok response, w1) →
            run.result = .ok (.inl response) ∧ run.world = w1) :=
  ⟨rfl, PrintToSheet_overwrite_single_update asciiStrings quotaService 4 3 "s" "A1" "rows" []⟩

/-- C8: when the fetch returns `rows`, `GetColumnValuesAsString` stops in the
failed type assertion exactly when some cell is not a string; when every cell
is a string, with `toLower` false it returns the strings of the row-major
flatten of the rows (the sequence `GetColumnValues` returns), and with
`toLower` true it returns that sequence with `strings.ToLower` applied to every
element. -/
theorem GetColumnValuesAsString_flatten (strings : Strings) (svc : Service W U A B) (w w1 : W)
    (spreadsheetId a1Notation : String) (rows : List (List Cell))
    (hget : svc.valuesGet w spreadsheetId a1Notation = (.ok rows, w1)) :
    (∀ toLower, (GetColumnValuesAsString strings svc w spreadsheetId a1Notation toLower).result
          = .error .interfaceConversion ↔
        ∃ row ∈ rows, ∃ cell ∈ row, ∀ s, cell ≠ .str s)
      ∧ (∀ toLower fault,
          (GetColumnValuesAsString strings svc w spreadsheetId a1Notation toLower).result
            = .error fault → fault = .interfaceConversion)
      ∧ ((∀ row ∈ rows, ∀ cell ∈ row, ∃ s, cell = .str s) →
        ∃ out, out.map Cell.str = rows.flatten
          ∧ (GetColumnValues svc w spreadsheetId a1Notation).result = .ok (out.map Cell.str)
          ∧ (GetColumnValuesAsString strings svc w spreadsheetId a1Notation false).result
            = .ok out
          ∧ (GetColumnValuesAsString strings svc w spreadsheetId a1Notation true).result
            = .ok (out.map strings.ToLower)) := by
  have hfault : (∃ row ∈ rows, ∃ cell ∈ row, ∀ s, cell ≠ .str s) → ∀ toLower,
      (GetColumnValuesAsString strings svc w spreadsheetId a1Notation toLower).result
        = .error .interfaceConversion := by
    intro h toLower
    simp [GetColumnValuesAsString, hget, stringValuesLoop_fault rows [] h]
  have hok : (∀ row ∈ rows, ∀ cell ∈ row, ∃ s, cell = .str s) →
      ∃ out, out.map Cell.str = rows.flatten
        ∧ (GetColumnValuesAsString strings svc w spreadsheetId a1Notation false).result = .ok out
        ∧ (GetColumnValuesAsString strings svc w spreadsheetId a1Notation true).result
          = .ok (out.map strings.ToLower) := by
    intro h
    obtain ⟨out, hout, hmap⟩ := stringValuesLoop_ok rows [] h
    rw [List.nil_append] at hout
    exact ⟨out, hmap, by simp [GetColumnValuesAsString, hget, hout],
      by simp [GetColumnValuesAsString, hget, hout]⟩
  refine ⟨?_, ?_, ?_⟩
  · intro toLower
    refine ⟨?_, fun h => hfault h toLower⟩
    intro herr
    rcases all_strings_or_not rows with hall | hsome
    · obtain ⟨out, _, hf, ht⟩ := hok hall
      cases toLower
      · rw [hf] at herr; cases herr
      · rw [ht] at herr; cases herr
    · exact hsome
  · intro toLower fault herr
    rcases all_strings_or_not rows with hall | hsome
    · obtain ⟨out, _, hf, ht⟩ := hok hall
      cases toLower
      · rw [hf] at herr; cases herr
      · rw [ht] at herr; cases herr
    · rw [hfault hsome toLower] at herr
      cases herr
      rfl
  · intro hall
    obtain ⟨out, hmap, hf, ht⟩ := hok hall
    refine ⟨out, hmap, ?_, hf, ht⟩
    simp [GetColumnValues, hget, columnValuesLoop_eq_flatten, hmap]

/-- Instance of C8 on the rows `[["Ab"],["C","d"]]` and on rows holding a number. -/
theorem GetColumnValuesAsString_flatten_witness :
    (GetColumnValuesAsString asciiStrings (fixedService stringRows) () "s" "A1" false).result
        = .ok ["Ab", "C", "d"]
      ∧ (GetColumnValuesAsString asciiStrings (fixedService stringRows) () "s" "A1" true).result
        = .ok ["ab", "c", "d"]
      ∧ (GetColumnValuesAsString asciiStrings (fixedService scenarioRows) () "s" "A1" true).result
        = .error .interfaceConversion
      ∧ ∃ row ∈ scenarioRows, ∃ cell ∈ row, ∀ s, cell ≠ .str s :=
  ⟨rfl, rfl, rfl,
    ((GetColumnValuesAsString_flatten asciiStrings (fixedService scenarioRows) () () "s" "A1"
      scenarioRows rfl).1 true).mp rfl⟩

/-- C10: given that `strings.ToLower` is idempotent on every string, when the fetch
returns rows whose cells are all strings, `GetColumnValuesAsString` with
`toLower` true returns some `r`, and run again with `toLower` true on a fetch
that returns `r` as a single row it returns `r` again. -/
theorem GetColumnValuesAsString_lower_idempotent (strings : Strings)
    (hidem : ∀ s, strings.ToLower (strings.ToLower s) = strings.ToLower s)
    (svc : Service W U A B) (w w1 : W) (spreadsheetId a1Notation : String)
    (rows : List (List Cell))
    (hget : svc.valuesGet w spreadsheetId a1Notation = (.ok rows, w1))
    (hstr : ∀ row ∈ rows, ∀ cell ∈ row, ∃ s, cell = .str s) :
    ∃ r, (GetColumnValuesAsString strings svc w spreadsheetId a1Notation true).result = .ok r
      ∧ ∀ (svc2 : Service W U A B) (w2 w3 : W) (spreadsheetId2 a1Notation2 : String),
          svc2.valuesGet w2 spreadsheetId2 a1Notation2 = (.ok [r.map Cell.str], w3) →
          (GetColumnValuesAsString strings svc2 w2 spreadsheetId2 a1Notation2 true).result
            = .ok r := by
  obtain ⟨out, hout, _⟩ := stringValuesLoop_ok rows [] hstr
  rw [List.nil_append] at hout
  refine ⟨out.map strings.ToLower, by simp [GetColumnValuesAsString, hget, hout], ?_⟩
  intro svc2 w2 w3 spreadsheetId2 a1Notation2 hget2
  have hall : ∀ row ∈ [(out.map strings.ToLower).map Cell.str], ∀ cell ∈ row,
      ∃ s, cell = .str s := by
    intro row hrow cell hcell
    rw [List.mem_singleton] at hrow
    subst hrow
    obtain ⟨s, _, rfl⟩ := List.mem_map.mp hcell
    exact ⟨s, rfl⟩
  obtain ⟨out2, hout2, hmap2⟩ := stringValuesLoop_ok _ [] hall
  rw [List.nil_append] at hout2
  have hinj : out2 = out.map strings.ToLower := by
    have : out2.map Cell.str = (out.map strings.ToLower).map Cell.str := by
      simpa using hmap2
    exact List.map_injective_iff.mpr (fun a b h => Cell.str.inj h) this
  subst hinj
  simp only [GetColumnValuesAsString, hget2, hout2]
  simp [hidem]

/-- Instance of C10 on the rows `[["Ab"],["C","d"]]` with the ASCII case
functions. -/
theorem GetColumnValuesAsString_lower_idempotent_witness :
    (GetColumnValuesAsString asciiStrings (fixedService stringRows) () "s" "A1" true).result
        = .ok ["ab", "c", "d"]
      ∧ (GetColumnValuesAsString asciiStrings
          (fixedService [[.str "ab", .str "c", .str "d"]]) () "s" "A1" true).result
        = .ok ["ab", "c", "d"]
      ∧ ∃ r, (GetColumnValuesAsString asciiStrings (fixedService stringRows) () "s" "A1"
            true).result = .ok r
        ∧ ∀ (svc2 : Service Unit Unit Unit Unit) (w2 w3 : Unit)
            (spreadsheetId2 a1Notation2 : String),
            svc2.valuesGet w2 spreadsheetId2 a1Notation2 = (.ok [r.map Cell.str], w3) →
            (GetColumnValuesAsString asciiStrings svc2 w2 spreadsheetId2 a1Notation2 true).result
              = .ok r :=
  ⟨rfl, rfl, GetColumnValuesAsString_lower_idempotent asciiStrings asciiToLower_idempotent
    (fixedService stringRows) () () "s" "A1" stringRows rfl (by simp [stringRows])⟩

end Theorems

end GoogleSheets3k
